import Mathlib

/-!
Verification of the ompi-count fragments: the uGNI byte-transport progress
engine (src/unnamed/part_001) and the CUDA device-memory interop layer
(src/ompi/mca/common/cuda/common_cuda.c), shallowly embedded as executable
Lean functions.  Machine integers that matter here are small counters and
list lengths, modelled as Nat; C int return codes are modelled as Int with
the OMPI error constants below.
-/


/-- OMPI_SUCCESS return code (value 0 in ompi). -/
def OMPI_SUCCESS : Int := 0

/-- OMPI_ERROR return code (value -1 in ompi). -/
def OMPI_ERROR : Int := -1

/-- OMPI_ERR_OUT_OF_RESOURCE return code (value -2 in ompi). -/
def OMPI_ERR_OUT_OF_RESOURCE : Int := -2

/-! ## CUDA completion-event pool (common_cuda.c)

Each copy direction (ipc/device-to-device, dtoh, htod) owns one circular
buffer of `cuda_event_max` slots: a CUevent array plus a parallel fragment
array, with cursors `first_avail`, `first_used` and counter `num_used`.
The three record functions and the three poll functions are textually
identical per direction, so one embedding covers all three directions.
A fragment descriptor pointer is modelled as a Nat. -/


/-- Fragment descriptor (a `mca_btl_base_descriptor_t *` in the source). -/
abbrev Frag := Nat

/-- Result of `cuFunc.cuEventQuery` on one event slot: CUDA_SUCCESS,
CUDA_ERROR_NOT_READY, or any other (hard) error code. -/
inductive CuEventQueryResult
  | success
  | notReady
  | errorOther
deriving DecidableEq

/-- The per-direction pool state of common_cuda.c: the fragment array
`cuda_event_*_frag_array` (modelled as a map from slot index to the stored
descriptor), and the globals `cuda_event_*_first_avail`,
`cuda_event_*_first_used`, `cuda_event_*_num_used`. -/
structure CudaEventPool where
  frag_array : Nat → Frag
  first_avail : Nat
  first_used : Nat
  num_used : Nat

/-- The cursor-bump idiom of common_cuda.c (e.g. lines 1099-1102):
increment, then reset to 0 when the cursor reaches `cuda_event_max`. -/
def wrapIndex (C i : Nat) : Nat := if i ≥ C then 0 else i

/-- Embeds mca_common_cuda_record_dtoh_event (common_cuda.c:1077-1106),
mca_common_cuda_record_htod_event (1112-1141) and the recording part of the
async path of mca_common_cuda_memcpy (977-1011), which are identical per
direction: if `num_used` equals `cuda_event_max` (the capacity `C`), fail
with OMPI_ERR_OUT_OF_RESOURCE; otherwise call cuEventRecord on the slot at
`first_avail` (its CUresult is the oracle `evtOk`; on failure return
OMPI_ERROR), store `frag` in the fragment array at `first_avail`, advance
`first_avail` with wrap-around and increment `num_used`.  Returns the C
return code and the pool state after the call. -/
def cudaRecordEvent (C : Nat) (s : CudaEventPool) (evtOk : Bool) (frag : Frag) :
    Int × CudaEventPool :=
  if s.num_used = C then
    (OMPI_ERR_OUT_OF_RESOURCE, s)
  else if evtOk = false then
    (OMPI_ERROR, s)
  else
    (OMPI_SUCCESS,
      { frag_array := fun j => if j = s.first_avail then frag else s.frag_array j
        first_avail := wrapIndex C (s.first_avail + 1)
        first_used := s.first_used
        num_used := s.num_used + 1 })

/-- Embeds progress_one_cuda_ipc_event (common_cuda.c:1162-1199),
progress_one_cuda_dtoh_event (1204-1241) and progress_one_cuda_htod_event
(1246-1283), identical per direction: when `num_used > 0`, cuEventQuery is
asked about the single slot `first_used` (the per-slot CUresult is the
oracle `query`); NOT_READY gives (NULL, unchanged state, 0); a hard error
gives (NULL, unchanged state, OMPI_ERROR); success returns the fragment
stored at `first_used`, decrements `num_used` and advances `first_used`
with wrap-around, returning 1.  An empty pool gives (NULL, unchanged, 0).
The triple is (the `*frag` out-parameter, the pool state after the call,
the C return value). -/
def progressOneCudaEvent (C : Nat) (s : CudaEventPool)
    (query : Nat → CuEventQueryResult) : Option Frag × CudaEventPool × Int :=
  if 0 < s.num_used then
    match query s.first_used with
    | .notReady => (none, s, 0)
    | .errorOther => (none, s, OMPI_ERROR)
    | .success =>
        (some (s.frag_array s.first_used),
         { frag_array := s.frag_array
           first_avail := s.first_avail
           first_used := wrapIndex C (s.first_used + 1)
           num_used := s.num_used - 1 },
         1)
  else
    (none, s, 0)

/-- One call against a direction's pool: a record call (with the CUresult
of its cuEventRecord) or a poll call (with the CUresult oracle of
cuEventQuery per slot). -/
inductive PoolOp
  | record (evtOk : Bool) (frag : Frag)
  | poll (query : Nat → CuEventQueryResult)

/-- The pool state set up by mca_common_cuda_init (common_cuda.c:330-335,
368-372, 403-407): all cursors and the counter at 0. -/
def initPool : CudaEventPool :=
  { frag_array := fun _ => 0, first_avail := 0, first_used := 0, num_used := 0 }

/-- Run a sequence of record/poll calls against a pool of capacity `C`.
Returns the final pool state, the fragments successfully recorded (in call
order) and the fragments handed back by the poll calls (in call order). -/
def runPool (C : Nat) : List PoolOp → CudaEventPool → CudaEventPool × List Frag × List Frag
  | [], s => (s, [], [])
  | PoolOp.record ok f :: ops, s =>
      let r := cudaRecordEvent C s ok f
      let rest := runPool C ops r.2
      (rest.1, (if r.1 = OMPI_SUCCESS then f :: rest.2.1 else rest.2.1), rest.2.2)
  | PoolOp.poll q :: ops, s =>
      let r := progressOneCudaEvent C s q
      let rest := runPool C ops r.2.1
      (rest.1,
       rest.2.1,
       (match r.1 with | some f => f :: rest.2.2 | none => rest.2.2))

/-- The abstract queue a pool state denotes: the `num_used` fragments found
at slots `first_used`, `first_used + 1`, ... modulo the capacity. -/
def poolPending (C : Nat) (s : CudaEventPool) : List Frag :=
  (List.range s.num_used).map fun i => s.frag_array ((s.first_used + i) % C)

/-- The circular-buffer invariant of a direction's pool (spec section 3,
Completion-Event Slot). -/
def PoolInv (C : Nat) (s : CudaEventPool) : Prop :=
  s.num_used ≤ C ∧ s.first_used < C ∧
  s.first_avail = (s.first_used + s.num_used) % C

/-- A concrete call sequence used to witness claim C1: two successful
records, then a completed poll, then a not-ready poll. -/
def c1WitnessOps : List PoolOp :=
  [PoolOp.record true 5, PoolOp.record true 7,
   PoolOp.poll (fun _ => CuEventQueryResult.success),
   PoolOp.poll (fun _ => CuEventQueryResult.notReady)]

/-! ## CUDA deferred memory registration (common_cuda.c:437-458, 658-731)

Before mca_common_cuda_init has run, registration requests are queued on
the opal list common_cuda_memory_registrations; init drains that list and
calls cuMemHostRegister once per removed entry.  A queued request is a
(ptr, amount) pair; the msg string is irrelevant to the claims. -/


/-- A queued registration request (struct common_cuda_mem_regs_t without
its msg field): the pointer and the byte count. -/
structure MemReg where
  ptr : Nat
  amount : Nat
deriving DecidableEq

/-- Embeds the not-yet-initialized branch of mca_common_cuda_register
(common_cuda.c:661-675): a new entry carrying the request is appended to
the pending list; no driver call is made. -/
def mca_common_cuda_register_queued (q : List MemReg) (r : MemReg) : List MemReg :=
  q ++ [r]

/-- Embeds the drain loop of mca_common_cuda_init (common_cuda.c:437-458):
every entry is removed from the pending list in order and, when the layer
is enabled and register_memory is set, cuMemHostRegister is invoked on it
(a failure of that driver call is printed and skipped, not fatal).
Returns the list of cuMemHostRegister invocations, in call order. -/
def mca_common_cuda_init_drain (enabled register_memory : Bool) :
    List MemReg → List MemReg
  | [] => []
  | r :: rest =>
      if enabled && register_memory then
        r :: mca_common_cuda_init_drain enabled register_memory rest
      else
        mca_common_cuda_init_drain enabled register_memory rest

/-- Remove the first element, `n` times: the pre-initialization drain loop
of mca_common_cuda_unregister (common_cuda.c:706-712), which runs
opal_list_remove_first once per entry counted at loop entry. -/
def removeFirstN : Nat → List MemReg → List MemReg
  | 0, q => q
  | n + 1, q => removeFirstN n q.tail

/-- Embeds mca_common_cuda_unregister (common_cuda.c:698-731): before the
layer is initialized, the whole pending list is drained entry by entry
(freeing each) and no driver call happens; after initialization,
cuMemHostUnregister is invoked on the given pointer (when enabled and
register_memory), and the pending list is not touched.  Returns the
remaining pending list and the list of cuMemHostUnregister calls. -/
def mca_common_cuda_unregister (initialized enabled register_memory : Bool)
    (q : List MemReg) (ptr : Nat) : List MemReg × List Nat :=
  if initialized = false then
    (removeFirstN q.length q, [])
  else
    (q, if enabled && register_memory then [ptr] else [])

/-! ## uGNI SMSG auto-threshold (part_001:250-290) -/


/-- Embeds the smsg-limit selection of mca_btl_ugni_smsg_setup
(part_001:258-271): when the configured `ugni_smsg_limit` is 0
(auto-select), the limit is chosen from the reported process count
`nprocs`; otherwise the configured value is kept. -/
def smsg_limit_select (ugni_smsg_limit : Nat) (nprocs : Nat) : Nat :=
  if ugni_smsg_limit = 0 then
    if nprocs ≤ 512 then 8192
    else if nprocs ≤ 1024 then 2048
    else if nprocs ≤ 8192 then 1024
    else if nprocs ≤ 16384 then 512
    else 256
  else ugni_smsg_limit

/-! ## uGNI RDMA completion and retry (part_001:427-480)

mca_btl_ugni_progress_rdma polls the rdma_local_cq.  A completed event
either succeeded (cbfunc fires with the mapped success code) or failed; a
failed transaction bumps the fragment's retry counter (post_desc.tries)
and either reposts the fragment (recoverable, budget left) or delivers
cbfunc(frag, OMPI_ERROR) and returns OMPI_ERROR. -/


/-- An RDMA fragment's retry state: post_desc.tries. -/
structure UgniRdmaFrag where
  tries : Nat
deriving DecidableEq

/-- One polled completion-queue outcome for mca_btl_ugni_progress_rdma:
GNI_RC_NOT_DONE, a successful completion for a fragment, or a transaction
error for a fragment together with the GNI_CqErrorRecoverable answer. -/
inductive RdmaCqEvent
  | notDone
  | ok (f : UgniRdmaFrag)
  | txFail (f : UgniRdmaFrag) (recoverable : Bool)
deriving DecidableEq

/-- The observable effect of one mca_btl_ugni_progress_rdma call. -/
inductive RdmaEffect
  | noEvent
  | callbackOk (f : UgniRdmaFrag)
  | reposted (f : UgniRdmaFrag)
  | callbackFailed (f : UgniRdmaFrag) (status : Int)
deriving DecidableEq

/-- Embeds mca_btl_ugni_progress_rdma (part_001:427-480): NOT_DONE returns
0 with no effect; a clean completion invokes the fragment's cbfunc with
success and returns 1; on a transaction error the fragment's tries counter
is pre-incremented and, when the incremented counter has reached
rdma_max_retries or the error is not recoverable, cbfunc(frag, OMPI_ERROR)
fires and OMPI_ERROR is returned, otherwise the fragment is reposted via
mca_btl_ugni_repost and 0 is returned. -/
def mca_btl_ugni_progress_rdma (rdma_max_retries : Nat) (ev : RdmaCqEvent) :
    Int × RdmaEffect :=
  match ev with
  | .notDone => (0, .noEvent)
  | .ok f => (1, .callbackOk f)
  | .txFail f recoverable =>
      let tries := f.tries + 1
      if rdma_max_retries ≤ tries ∨ recoverable = false then
        (OMPI_ERROR, .callbackFailed ⟨tries⟩ OMPI_ERROR)
      else
        (0, .reposted ⟨tries⟩)

/-- Deliver up to `n` consecutive recoverable transaction failures to one
fragment, collecting the effect of each mca_btl_ugni_progress_rdma call;
the run stops at the first non-repost effect (the fragment is gone). -/
def runRecoverableFailures (rdma_max_retries : Nat) : Nat → UgniRdmaFrag → List RdmaEffect
  | 0, _ => []
  | n + 1, f =>
      match mca_btl_ugni_progress_rdma rdma_max_retries (.txFail f true) with
      | (_, .reposted f') => .reposted f' :: runRecoverableFailures rdma_max_retries n f'
      | (_, eff) => [eff]

/-- Does this effect repost the fragment? -/
def isRepostEffect : RdmaEffect → Bool
  | .reposted _ => true
  | _ => false

/-- Does this effect deliver the failure callback? -/
def isFailCallbackEffect : RdmaEffect → Bool
  | .callbackFailed _ _ => true
  | _ => false

/-! ## uGNI component progress (part_001:482-541)

mca_btl_ugni_component_progress walks every module; per module it calls
mca_btl_ugni_retry_failed and mca_btl_ugni_progress_wait_list — whose
return values are discarded (lines 531-532) — and accumulates into `count`
only the values returned by the datagram, local-SMSG, remote-SMSG and RDMA
polls (lines 534-537).  The guts of the SMSG/datagram polls live outside
the supplied sources, so a module is modelled by what this function
observes of it: the failed-frag list, the wait-list length, and the four
polled return values. -/


/-- One module as seen by a single mca_btl_ugni_component_progress
invocation. -/
structure UgniModuleObs where
  failed_frags : List Nat
  ep_wait_list_len : Nat
  datagram_count : Int
  local_smsg_count : Int
  remote_smsg_count : Int
  rdma_count : Int
deriving DecidableEq

/-- Embeds mca_btl_ugni_retry_failed (part_001:482-497): every fragment on
the module's failed_frags list is removed and its cbfunc is invoked with
OMPI_SUCCESS; the function returns the number of fragments flushed.
Result: (the (frag, status) callback invocations, the returned count). -/
def mca_btl_ugni_retry_failed (failed_frags : List Nat) : List (Nat × Int) × Nat :=
  (failed_frags.map (fun f => (f, OMPI_SUCCESS)), failed_frags.length)

/-- Embeds mca_btl_ugni_component_progress (part_001:522-541): per module,
mca_btl_ugni_retry_failed and mca_btl_ugni_progress_wait_list are invoked
with their return values discarded, then `count` accumulates the datagram,
local-SMSG, remote-SMSG and RDMA poll results; the accumulated count is
returned. -/
def mca_btl_ugni_component_progress (modules : List UgniModuleObs) : Int :=
  modules.foldl
    (fun count m =>
      let _flushed := mca_btl_ugni_retry_failed m.failed_frags
      let _waited := m.ep_wait_list_len
      count + m.datagram_count + m.local_smsg_count +
        m.remote_smsg_count + m.rdma_count)
    0

/-- The return value claim C3 describes, written from the spec's words:
the total count of distinct work items advanced across all five steps per
device — soft-retry flushes, wait-listed endpoints drained,
connection-datagram completions, SMSG completions (local and remote) and
RDMA completions.  Stated from the spec for comparison with
mca_btl_ugni_component_progress. -/
def spec_progress_work_total (modules : List UgniModuleObs) : Int :=
  modules.foldl
    (fun count m =>
      count + (m.failed_frags.length : Int) + (m.ep_wait_list_len : Int) +
        m.datagram_count + m.local_smsg_count +
        m.remote_smsg_count + m.rdma_count)
    0

/-! ## uGNI endpoint wait list (part_001:499-520)

A module's ep_wait_list holds back-pressured endpoints; every endpoint
carries a wait_listed flag.  The state is the list of endpoints (by id)
currently on ep_wait_list plus the set of endpoint ids whose wait_listed
flag is true.  mca_btl_ugni_progress_wait_list pops one endpoint per
initial entry, clears its flag, re-attempts its sends and conditionally
re-appends it. -/


/-- The wait-list state of one module: the ep_wait_list entries in order,
and the endpoint ids whose wait_listed flag is true. -/
structure WaitListState where
  ep_wait_list : List Nat
  flagged : List Nat
deriving DecidableEq

/-- Modelled from the spec: the backpressure wait-list append routine is
not among the supplied sources (only its re-append copy inside
mca_btl_ugni_progress_wait_list at part_001:513-516 is); per the spec,
"the endpoint is appended to a module-wide wait list (idempotently — a
boolean flag prevents double-listing)".  When the endpoint's wait_listed
flag is already set nothing happens; otherwise the endpoint is appended
and its flag set.  Also returns the appended endpoints (one or none), for
bookkeeping in the theorems. -/
def wait_list_add (s : WaitListState) (e : Nat) : WaitListState × List Nat :=
  if e ∈ s.flagged then (s, [])
  else (⟨s.ep_wait_list ++ [e], e :: s.flagged⟩, [e])

/-- The loop of mca_btl_ugni_progress_wait_list (part_001:505-517), run
for `k` iterations: pop the first endpoint, clear its wait_listed flag,
call mca_btl_progress_send_wait_list on it (external; the oracle gives,
per iteration, whether it returned OMPI_SUCCESS and whether the send path
itself re-wait-listed the endpoint through the guarded append while
running), then re-append the endpoint if the send failed and its flag is
still clear (part_001:513-516).  Returns the final state and the log of
endpoints appended back during the loop. -/
def progressWaitListLoop (oracle : Nat → Bool × Bool) :
    Nat → WaitListState → WaitListState × List Nat
  | 0, s => (s, [])
  | k + 1, s =>
    match s.ep_wait_list with
    | [] => (s, [])
    | e :: rest =>
      let sendOk := (oracle k).1
      let extAdd := (oracle k).2
      let s1 : WaitListState := ⟨rest, s.flagged.erase e⟩
      let r2 := if extAdd then wait_list_add s1 e else (s1, [])
      let r3 := if sendOk then (r2.1, ([] : List Nat)) else wait_list_add r2.1 e
      let r := progressWaitListLoop oracle k r3.1
      (r.1, r2.2 ++ r3.2 ++ r.2)

/-- Embeds mca_btl_ugni_progress_wait_list (part_001:499-520): the
iteration count is the wait-list length at entry; returns the final
state, the append log, and the function's return value (the entry
count). -/
def mca_btl_ugni_progress_wait_list (oracle : Nat → Bool × Bool)
    (s : WaitListState) : WaitListState × List Nat × Nat :=
  ((progressWaitListLoop oracle s.ep_wait_list.length s).1,
   (progressWaitListLoop oracle s.ep_wait_list.length s).2,
   s.ep_wait_list.length)

/-- The wait-list invariant: no endpoint appears twice on ep_wait_list,
and the wait_listed flag is set for exactly the listed endpoints. -/
def WaitInv (s : WaitListState) : Prop :=
  s.ep_wait_list.Nodup ∧ s.flagged.Nodup ∧
  (∀ e ∈ s.flagged, e ∈ s.ep_wait_list) ∧
  (∀ e ∈ s.ep_wait_list, e ∈ s.flagged)

/-! ## Lemmas and claim theorems -/

lemma wrapIndex_mod (C m : Nat) (hC : 0 < C) : wrapIndex C (m % C + 1) = (m + 1) % C := by
  have h0 : C * (m / C) + m % C = m := Nat.div_add_mod m C
  have h1 : (m + 1) % C = (m % C + 1) % C := by
    conv_lhs => rw [← h0]
    rw [Nat.add_assoc, Nat.mul_add_mod]
  have hm : m % C < C := Nat.mod_lt m hC
  rcases Nat.lt_or_ge (m % C + 1) C with h | h
  · rw [wrapIndex, if_neg (by omega), h1, Nat.mod_eq_of_lt h]
  · have hEq : m % C + 1 = C := by omega
    rw [wrapIndex, if_pos h, h1, hEq, Nat.mod_self]

lemma wrapIndex_succ_of_lt (C fu : Nat) (hfu : fu < C) :
    wrapIndex C (fu + 1) = (fu + 1) % C := by
  have hC : 0 < C := Nat.lt_of_le_of_lt (Nat.zero_le fu) hfu
  have h := wrapIndex_mod C fu hC
  rwa [Nat.mod_eq_of_lt hfu] at h

lemma add_mod_ne_of_lt (C fu i n : Nat) (hin : i < n) (hn : n < C) :
    (fu + i) % C ≠ (fu + n) % C := by
  intro h
  have h2 : i ≡ n [MOD C] := Nat.ModEq.add_left_cancel' fu h
  have h3 : i % C = n % C := h2
  rw [Nat.mod_eq_of_lt (lt_trans hin hn), Nat.mod_eq_of_lt hn] at h3
  omega

lemma pending_after_write (C : Nat) (arr : Nat → Frag) (fu n : Nat) (f : Frag)
    (hn : n < C) :
    (List.range (n + 1)).map
        (fun i => if (fu + i) % C = (fu + n) % C then f else arr ((fu + i) % C)) =
      (List.range n).map (fun i => arr ((fu + i) % C)) ++ [f] := by
  rw [List.range_succ, List.map_append]
  congr 1
  · apply List.map_congr_left
    intro i hi
    have hilt : i < n := List.mem_range.mp hi
    exact if_neg (add_mod_ne_of_lt C fu i n hilt hn)
  · simp

lemma pending_after_pop (C : Nat) (arr : Nat → Frag) (fu m : Nat) (hfu : fu < C) :
    (List.range (m + 1)).map (fun i => arr ((fu + i) % C)) =
      arr fu :: (List.range m).map (fun i => arr (((fu + 1) % C + i) % C)) := by
  rw [List.range_succ_eq_map, List.map_cons, List.map_map]
  congr 1
  · rw [Nat.add_zero, Nat.mod_eq_of_lt hfu]
  · apply List.map_congr_left
    intro i _
    show arr ((fu + (i + 1)) % C) = arr (((fu + 1) % C + i) % C)
    have hadd : fu + (i + 1) = fu + 1 + i := by omega
    rw [Nat.mod_add_mod, hadd]

lemma cudaRecordEvent_spec (C : Nat) (s : CudaEventPool) (ok : Bool) (f : Frag)
    (hC : 0 < C) (hInv : PoolInv C s) :
    PoolInv C (cudaRecordEvent C s ok f).2 ∧
    ((cudaRecordEvent C s ok f).1 = OMPI_SUCCESS →
        poolPending C (cudaRecordEvent C s ok f).2 = poolPending C s ++ [f]) ∧
    ((cudaRecordEvent C s ok f).1 ≠ OMPI_SUCCESS → (cudaRecordEvent C s ok f).2 = s) := by
  obtain ⟨h1, h2, h3⟩ := hInv
  by_cases hfull : s.num_used = C
  · rw [show cudaRecordEvent C s ok f = (OMPI_ERR_OUT_OF_RESOURCE, s) by
      simp [cudaRecordEvent, hfull]]
    refine ⟨⟨h1, h2, h3⟩, ?_, fun _ => rfl⟩
    intro h
    simp [OMPI_ERR_OUT_OF_RESOURCE, OMPI_SUCCESS] at h
  · by_cases hok : ok = false
    · rw [show cudaRecordEvent C s ok f = (OMPI_ERROR, s) by
        simp [cudaRecordEvent, hfull, hok]]
      refine ⟨⟨h1, h2, h3⟩, ?_, fun _ => rfl⟩
      intro h
      simp [OMPI_ERROR, OMPI_SUCCESS] at h
    · have hok' : ok = true := by revert hok; cases ok <;> simp
      have hn : s.num_used < C := lt_of_le_of_ne h1 hfull
      rw [show cudaRecordEvent C s ok f =
          (OMPI_SUCCESS,
            { frag_array := fun j => if j = s.first_avail then f else s.frag_array j
              first_avail := wrapIndex C (s.first_avail + 1)
              first_used := s.first_used
              num_used := s.num_used + 1 }) by
        simp [cudaRecordEvent, hfull, hok']]
      refine ⟨⟨?_, ?_, ?_⟩, ?_, fun h => absurd rfl h⟩
      · show s.num_used + 1 ≤ C
        omega
      · exact h2
      · show wrapIndex C (s.first_avail + 1) = (s.first_used + (s.num_used + 1)) % C
        rw [h3, wrapIndex_mod C (s.first_used + s.num_used) hC, ← Nat.add_assoc]
      · intro _
        show (List.range (s.num_used + 1)).map
            (fun i => if (s.first_used + i) % C = s.first_avail then f
                      else s.frag_array ((s.first_used + i) % C)) =
          poolPending C s ++ [f]
        simp only [h3]
        exact pending_after_write C s.frag_array s.first_used s.num_used f hn

lemma progressOneCudaEvent_spec (C : Nat) (s : CudaEventPool)
    (query : Nat → CuEventQueryResult) (hC : 0 < C) (hInv : PoolInv C s) :
    PoolInv C (progressOneCudaEvent C s query).2.1 ∧
    ((progressOneCudaEvent C s query).1 = none →
        (progressOneCudaEvent C s query).2.1 = s) ∧
    (∀ f, (progressOneCudaEvent C s query).1 = some f →
        poolPending C s = f :: poolPending C (progressOneCudaEvent C s query).2.1) := by
  obtain ⟨h1, h2, h3⟩ := hInv
  by_cases hn : 0 < s.num_used
  · rcases hq : query s.first_used with _ | _ | _
    · -- CUDA_SUCCESS: the head fragment is handed back and the slot freed
      rw [show progressOneCudaEvent C s query =
          (some (s.frag_array s.first_used),
           { frag_array := s.frag_array
             first_avail := s.first_avail
             first_used := wrapIndex C (s.first_used + 1)
             num_used := s.num_used - 1 }, 1) by
        simp [progressOneCudaEvent, hn, hq]]
      obtain ⟨m, hm⟩ : ∃ m, s.num_used = m + 1 := ⟨s.num_used - 1, by omega⟩
      refine ⟨⟨?_, ?_, ?_⟩, ?_, ?_⟩
      · show s.num_used - 1 ≤ C
        omega
      · show wrapIndex C (s.first_used + 1) < C
        rw [wrapIndex_succ_of_lt C s.first_used h2]
        exact Nat.mod_lt _ hC
      · show s.first_avail = (wrapIndex C (s.first_used + 1) + (s.num_used - 1)) % C
        rw [h3, wrapIndex_succ_of_lt C s.first_used h2, Nat.mod_add_mod]
        congr 1
        omega
      · intro h
        simp at h
      · intro f hf
        have hf' : f = s.frag_array s.first_used := by
          simpa using hf.symm
        subst hf'
        show poolPending C s = _ :: poolPending C _
        unfold poolPending
        dsimp only
        rw [hm]
        simp only [Nat.add_sub_cancel, wrapIndex_succ_of_lt C s.first_used h2]
        exact pending_after_pop C s.frag_array s.first_used m h2
    · -- CUDA_ERROR_NOT_READY: nothing returned, state untouched
      rw [show progressOneCudaEvent C s query = (none, s, 0) by
        simp [progressOneCudaEvent, hn, hq]]
      exact ⟨⟨h1, h2, h3⟩, fun _ => rfl, fun f hf => by simp at hf⟩
    · -- hard cuEventQuery error: nothing returned, state untouched
      rw [show progressOneCudaEvent C s query = (none, s, OMPI_ERROR) by
        simp [progressOneCudaEvent, hn, hq]]
      exact ⟨⟨h1, h2, h3⟩, fun _ => rfl, fun f hf => by simp at hf⟩
  · rw [show progressOneCudaEvent C s query = (none, s, 0) by
      simp [progressOneCudaEvent, hn]]
    exact ⟨⟨h1, h2, h3⟩, fun _ => rfl, fun f hf => by simp at hf⟩

lemma runPool_spec (C : Nat) (hC : 0 < C) :
    ∀ (ops : List PoolOp) (s : CudaEventPool), PoolInv C s →
      PoolInv C (runPool C ops s).1 ∧
      poolPending C s ++ (runPool C ops s).2.1 =
        (runPool C ops s).2.2 ++ poolPending C (runPool C ops s).1 := by
  intro ops
  induction ops with
  | nil =>
    intro s h
    refine ⟨h, ?_⟩
    simp [runPool]
  | cons op rest ih =>
    intro s hs
    cases op with
    | record ok f =>
      obtain ⟨hInv', hsucc, hfail⟩ := cudaRecordEvent_spec C s ok f hC hs
      obtain ⟨ihInv, ihEq⟩ := ih (cudaRecordEvent C s ok f).2 hInv'
      simp only [runPool]
      refine ⟨ihInv, ?_⟩
      by_cases hrc : (cudaRecordEvent C s ok f).1 = OMPI_SUCCESS
      · rw [if_pos hrc, show poolPending C s ++
            f :: (runPool C rest (cudaRecordEvent C s ok f).2).2.1 =
              (poolPending C s ++ [f]) ++
                (runPool C rest (cudaRecordEvent C s ok f).2).2.1 by simp]
        rw [← hsucc hrc]
        exact ihEq
      · rw [if_neg hrc]
        rw [hfail hrc]
        exact (ih s hs).2
    | poll q =>
      obtain ⟨hInv', hnone, hsome⟩ := progressOneCudaEvent_spec C s q hC hs
      obtain ⟨ihInv, ihEq⟩ := ih (progressOneCudaEvent C s q).2.1 hInv'
      simp only [runPool]
      refine ⟨ihInv, ?_⟩
      rcases hout : (progressOneCudaEvent C s q).1 with _ | f
      · show poolPending C s ++ (runPool C rest (progressOneCudaEvent C s q).2.1).2.1 =
          (runPool C rest (progressOneCudaEvent C s q).2.1).2.2 ++
            poolPending C (runPool C rest (progressOneCudaEvent C s q).2.1).1
        rw [hnone hout]
        exact (ih s hs).2
      · show poolPending C s ++ (runPool C rest (progressOneCudaEvent C s q).2.1).2.1 =
          (f :: (runPool C rest (progressOneCudaEvent C s q).2.1).2.2) ++
            poolPending C (runPool C rest (progressOneCudaEvent C s q).2.1).1
        rw [hsome f hout]
        simp only [List.cons_append]
        exact congrArg (List.cons f) ihEq

/-- Claim C1: for every completion-event pool direction of capacity
C = cuda_event_max and every finite interleaved sequence of record calls
(mca_common_cuda_memcpy, mca_common_cuda_record_dtoh_event,
mca_common_cuda_record_htod_event) and poll calls
(progress_one_cuda_ipc_event, progress_one_cuda_dtoh_event,
progress_one_cuda_htod_event) starting from the freshly initialized pool,
num_used never exceeds C (first conjunct, over every prefix of the call
sequence), and the fragments handed back by the poll calls are exactly an
initial segment, in order, of the successfully recorded fragments (second
conjunct: recorded = polled ++ still-pending), i.e. polls return fragments
in exactly the order they were recorded (FIFO). -/
theorem cuda_event_pool_bounded_and_fifo (C : Nat) (hC : 0 < C) (ops : List PoolOp) :
    (∀ n : Nat, ((runPool C (ops.take n) initPool).1).num_used ≤ C) ∧
    (runPool C ops initPool).2.1 =
      (runPool C ops initPool).2.2 ++ poolPending C (runPool C ops initPool).1 := by
  have hinit : PoolInv C initPool := by
    refine ⟨Nat.zero_le _, hC, ?_⟩
    simp [initPool]
  constructor
  · intro n
    exact (runPool_spec C hC (ops.take n) initPool hinit).1.1
  · have h := (runPool_spec C hC ops initPool hinit).2
    have hpend : poolPending C initPool = [] := by
      simp [poolPending, initPool]
    rw [hpend] at h
    simpa using h

/-- Witness for claim C1 at the default capacity cuda_event_max = 200 and
a concrete call sequence. -/
theorem cuda_event_pool_bounded_and_fifo_witness :
    0 < 200 ∧
    ((∀ n : Nat, ((runPool 200 (c1WitnessOps.take n) initPool).1).num_used ≤ 200) ∧
     (runPool 200 c1WitnessOps initPool).2.1 =
       (runPool 200 c1WitnessOps initPool).2.2 ++
         poolPending 200 (runPool 200 c1WitnessOps initPool).1) :=
  ⟨by decide, cuda_event_pool_bounded_and_fifo 200 (by decide) c1WitnessOps⟩

/-- Claim C5 (counterexample): the claim says that on completion a poll
call advances BOTH index cursors (first_avail and first_used) modulo
capacity.  In the code the poll functions only decrement num_used and
advance first_used (common_cuda.c:1189-1194); first_avail is advanced only
by the record calls.  Concretely: from the pool state reached by one
successful record (first_avail = 1, first_used = 0, num_used = 1), a poll
whose cuEventQuery reports success hands back the fragment and advances
first_used to 1, but leaves first_avail at 1 instead of advancing it
to 2. -/
theorem poll_leaves_first_avail_counterexample :
    (progressOneCudaEvent 200 ⟨fun _ => 7, 1, 0, 1⟩ (fun _ => CuEventQueryResult.success)).1 =
        some 7 ∧
    ((progressOneCudaEvent 200 ⟨fun _ => 7, 1, 0, 1⟩ (fun _ => CuEventQueryResult.success)).2.1).first_used = 1 ∧
    ((progressOneCudaEvent 200 ⟨fun _ => 7, 1, 0, 1⟩ (fun _ => CuEventQueryResult.success)).2.1).num_used = 0 ∧
    ((progressOneCudaEvent 200 ⟨fun _ => 7, 1, 0, 1⟩ (fun _ => CuEventQueryResult.success)).2.1).first_avail = 1 ∧
    ¬ ((progressOneCudaEvent 200 ⟨fun _ => 7, 1, 0, 1⟩ (fun _ => CuEventQueryResult.success)).2.1).first_avail = 2 := by
  refine ⟨rfl, rfl, rfl, rfl, ?_⟩
  decide

/-- Claim C5 (amended): each poll call is non-blocking, inspects only the
head-of-queue slot (index first_used), returns no descriptor when the
oldest slot's event is not yet ready, and, when the oldest slot's event
has completed, frees that slot by decrementing num_used and advancing
first_used modulo capacity; first_avail is NOT modified by a poll (it
advances only on record).  Head-only inspection is stated as: the result
depends only on the query answer for slot first_used. -/
theorem poll_head_only_and_advances_first_used (C : Nat) (s : CudaEventPool)
    (query : Nat → CuEventQueryResult) (hn : 0 < s.num_used) :
    (query s.first_used = CuEventQueryResult.notReady →
        progressOneCudaEvent C s query = (none, s, 0)) ∧
    (query s.first_used = CuEventQueryResult.success →
        progressOneCudaEvent C s query =
          (some (s.frag_array s.first_used),
           { frag_array := s.frag_array
             first_avail := s.first_avail
             first_used := wrapIndex C (s.first_used + 1)
             num_used := s.num_used - 1 }, 1) ∧
        ((progressOneCudaEvent C s query).2.1).first_avail = s.first_avail) ∧
    (∀ query' : Nat → CuEventQueryResult,
        query' s.first_used = query s.first_used →
        progressOneCudaEvent C s query' = progressOneCudaEvent C s query) := by
  refine ⟨?_, ?_, ?_⟩
  · intro hq
    simp [progressOneCudaEvent, hn, hq]
  · intro hq
    constructor
    · simp [progressOneCudaEvent, hn, hq]
    · simp [progressOneCudaEvent, hn, hq]
  · intro query' hq
    unfold progressOneCudaEvent
    rw [hq]

/-- Witness for the amended claim C5, at a concrete one-element pool. -/
theorem poll_head_only_and_advances_first_used_witness :
    0 < (⟨fun _ => 7, 1, 0, 1⟩ : CudaEventPool).num_used ∧
    (((fun _ => CuEventQueryResult.success) (⟨fun _ => 7, 1, 0, 1⟩ : CudaEventPool).first_used =
          CuEventQueryResult.notReady →
        progressOneCudaEvent 200 ⟨fun _ => 7, 1, 0, 1⟩ (fun _ => CuEventQueryResult.success) =
          (none, ⟨fun _ => 7, 1, 0, 1⟩, 0)) ∧
     ((fun _ => CuEventQueryResult.success) (⟨fun _ => 7, 1, 0, 1⟩ : CudaEventPool).first_used =
          CuEventQueryResult.success →
        progressOneCudaEvent 200 ⟨fun _ => 7, 1, 0, 1⟩ (fun _ => CuEventQueryResult.success) =
          (some ((⟨fun _ => 7, 1, 0, 1⟩ : CudaEventPool).frag_array
                   (⟨fun _ => 7, 1, 0, 1⟩ : CudaEventPool).first_used),
           { frag_array := (⟨fun _ => 7, 1, 0, 1⟩ : CudaEventPool).frag_array
             first_avail := (⟨fun _ => 7, 1, 0, 1⟩ : CudaEventPool).first_avail
             first_used := wrapIndex 200 ((⟨fun _ => 7, 1, 0, 1⟩ : CudaEventPool).first_used + 1)
             num_used := (⟨fun _ => 7, 1, 0, 1⟩ : CudaEventPool).num_used - 1 }, 1) ∧
        ((progressOneCudaEvent 200 ⟨fun _ => 7, 1, 0, 1⟩
            (fun _ => CuEventQueryResult.success)).2.1).first_avail =
          (⟨fun _ => 7, 1, 0, 1⟩ : CudaEventPool).first_avail) ∧
     (∀ query' : Nat → CuEventQueryResult,
        query' (⟨fun _ => 7, 1, 0, 1⟩ : CudaEventPool).first_used =
          (fun _ => CuEventQueryResult.success) (⟨fun _ => 7, 1, 0, 1⟩ : CudaEventPool).first_used →
        progressOneCudaEvent 200 ⟨fun _ => 7, 1, 0, 1⟩ query' =
          progressOneCudaEvent 200 ⟨fun _ => 7, 1, 0, 1⟩ (fun _ => CuEventQueryResult.success))) :=
  ⟨by decide,
   poll_head_only_and_advances_first_used 200 ⟨fun _ => 7, 1, 0, 1⟩
     (fun _ => CuEventQueryResult.success) (by decide)⟩

/-- Claim C6: a record call fails with OMPI_ERR_OUT_OF_RESOURCE exactly
when num_used equals the capacity cuda_event_max (the check at
common_cuda.c:977, 1084, 1119), the failure is returned to the immediate
caller as an error code rather than a crash, and every failing record call
(out-of-resources as well as a cuEventRecord failure) leaves the pool
state unchanged: num_used, first_avail and first_used keep their prior
values. -/
theorem record_out_of_resource_iff_full (C : Nat) (s : CudaEventPool)
    (ok : Bool) (f : Frag) :
    ((cudaRecordEvent C s ok f).1 = OMPI_ERR_OUT_OF_RESOURCE ↔ s.num_used = C) ∧
    ((cudaRecordEvent C s ok f).1 ≠ OMPI_SUCCESS → (cudaRecordEvent C s ok f).2 = s) := by
  by_cases hfull : s.num_used = C
  · rw [show cudaRecordEvent C s ok f = (OMPI_ERR_OUT_OF_RESOURCE, s) by
      simp [cudaRecordEvent, hfull]]
    exact ⟨⟨fun _ => hfull, fun _ => rfl⟩, fun _ => rfl⟩
  · by_cases hok : ok = false
    · rw [show cudaRecordEvent C s ok f = (OMPI_ERROR, s) by
        simp [cudaRecordEvent, hfull, hok]]
      refine ⟨⟨?_, fun h => absurd h hfull⟩, fun _ => rfl⟩
      intro h
      simp [OMPI_ERROR, OMPI_ERR_OUT_OF_RESOURCE] at h
    · have hok' : ok = true := by revert hok; cases ok <;> simp
      constructor
      · constructor
        · intro h
          simp [cudaRecordEvent, hfull, hok', OMPI_SUCCESS, OMPI_ERR_OUT_OF_RESOURCE] at h
        · intro h
          exact absurd h hfull
      · intro h
        exact absurd (by simp [cudaRecordEvent, hfull, hok']) h

/-- Witness for claim C6: at a full pool (num_used = capacity = 200) the
record call reports out-of-resources and the state is unchanged. -/
theorem record_out_of_resource_iff_full_witness :
    (cudaRecordEvent 200 ⟨fun _ => 0, 0, 0, 200⟩ true 9).1 = OMPI_ERR_OUT_OF_RESOURCE ∧
    (cudaRecordEvent 200 ⟨fun _ => 0, 0, 0, 200⟩ true 9).2 = ⟨fun _ => 0, 0, 0, 200⟩ :=
  ⟨(record_out_of_resource_iff_full 200 ⟨fun _ => 0, 0, 0, 200⟩ true 9).1.mpr rfl,
   (record_out_of_resource_iff_full 200 ⟨fun _ => 0, 0, 0, 200⟩ true 9).2 (by decide)⟩

/-- Claim C9: if querying the head slot's event returns a hard error
(neither CUDA_SUCCESS nor CUDA_ERROR_NOT_READY), the poll call returns
OMPI_ERROR with the output fragment NULL and leaves the pool state
unchanged (num_used and first_used keep their values, the head slot is
not freed), and a subsequent poll of the same pool under the same query
answers returns the same error again. -/
theorem poll_hard_error_unchanged (C : Nat) (s : CudaEventPool)
    (query : Nat → CuEventQueryResult) (hn : 0 < s.num_used)
    (hq : query s.first_used = CuEventQueryResult.errorOther) :
    progressOneCudaEvent C s query = (none, s, OMPI_ERROR) ∧
    progressOneCudaEvent C (progressOneCudaEvent C s query).2.1 query =
      (none, s, OMPI_ERROR) := by
  have h1 : progressOneCudaEvent C s query = (none, s, OMPI_ERROR) := by
    simp [progressOneCudaEvent, hn, hq]
  refine ⟨h1, ?_⟩
  rw [h1]
  exact h1

/-- Witness for claim C9 at a concrete one-element pool whose head event
query reports a hard error. -/
theorem poll_hard_error_unchanged_witness :
    0 < (⟨fun _ => 7, 1, 0, 1⟩ : CudaEventPool).num_used ∧
    (fun _ => CuEventQueryResult.errorOther) (⟨fun _ => 7, 1, 0, 1⟩ : CudaEventPool).first_used =
      CuEventQueryResult.errorOther ∧
    (progressOneCudaEvent 200 ⟨fun _ => 7, 1, 0, 1⟩ (fun _ => CuEventQueryResult.errorOther) =
        (none, (⟨fun _ => 7, 1, 0, 1⟩ : CudaEventPool), OMPI_ERROR) ∧
     progressOneCudaEvent 200
        (progressOneCudaEvent 200 ⟨fun _ => 7, 1, 0, 1⟩
          (fun _ => CuEventQueryResult.errorOther)).2.1
        (fun _ => CuEventQueryResult.errorOther) =
        (none, (⟨fun _ => 7, 1, 0, 1⟩ : CudaEventPool), OMPI_ERROR)) :=
  ⟨by decide, by decide,
   poll_hard_error_unchanged 200 ⟨fun _ => 7, 1, 0, 1⟩
     (fun _ => CuEventQueryResult.errorOther) (by decide) (by decide)⟩

lemma removeFirstN_length (q : List MemReg) : removeFirstN q.length q = [] := by
  induction q with
  | nil => rfl
  | cons a rest ih =>
    show removeFirstN rest.length (a :: rest).tail = []
    exact ih

/-- Claim C4 (counterexample): the claim says repeated registration
requests for the same region queued before initialization are merged, so
init registers each distinct region exactly once.  In the code,
mca_common_cuda_register appends unconditionally (common_cuda.c:668-673)
and the init drain calls cuMemHostRegister once per queued entry
(common_cuda.c:437-458) with no de-duplication: queueing the region
(ptr 1, 64 bytes) twice makes init invoke cuMemHostRegister on it twice,
not once. -/
theorem register_queue_no_dedup_counterexample :
    (mca_common_cuda_init_drain true true
        (mca_common_cuda_register_queued
          (mca_common_cuda_register_queued [] ⟨1, 64⟩) ⟨1, 64⟩)).count ⟨1, 64⟩ = 2 ∧
    ¬ (mca_common_cuda_init_drain true true
        (mca_common_cuda_register_queued
          (mca_common_cuda_register_queued [] ⟨1, 64⟩) ⟨1, 64⟩)).count ⟨1, 64⟩ = 1 := by
  constructor
  · rfl
  · decide

/-- Claim C4 (amended): requests queued before initialization are kept
verbatim, one entry per request, and the init drain applies
cuMemHostRegister exactly once per queued entry, in queue order — so a
region queued k times is registered k times (registration requests are
not merged or de-duplicated). -/
theorem init_drains_once_per_queued_request (q : List MemReg) :
    mca_common_cuda_init_drain true true q = q ∧
    (∀ r : MemReg, (mca_common_cuda_init_drain true true q).count r = q.count r) := by
  have h : mca_common_cuda_init_drain true true q = q := by
    induction q with
    | nil => rfl
    | cons a rest ih =>
      show a :: mca_common_cuda_init_drain true true rest = a :: rest
      rw [ih]
  exact ⟨h, fun r => by rw [h]⟩

/-- Claim C10: calling mca_common_cuda_unregister before the interop layer
has initialized removes and frees every entry of the pending-registration
queue — whatever pointer argument is passed — leaving the pending queue
empty, and performs no cuMemHostUnregister driver call. -/
theorem unregister_before_init_empties_queue (q : List MemReg) (ptr : Nat)
    (enabled register_memory : Bool) :
    mca_common_cuda_unregister false enabled register_memory q ptr = ([], []) := by
  unfold mca_common_cuda_unregister
  rw [if_pos rfl, removeFirstN_length]

/-- Claim C2 (counterexample): the claim says a fragment that fails
recoverably exactly rdma_max_retries times is resubmitted rdma_max_retries
times, with the failure callback only on the (rdma_max_retries + 1)-th
failure.  With the registered default rdma_max_retries = 16
(part_001:162) and a fresh fragment (tries = 0), the give-up test
`++frag->post_desc.tries >= rdma_max_retries` (part_001:460) already fires
on the 16th failure: the run shows 15 resubmissions — not 16 — and the
failure callback at the 16th recoverable failure, so delivering 17
recoverable failures never happens. -/
theorem rdma_retry_off_by_one_counterexample :
    (runRecoverableFailures 16 17 ⟨0⟩).countP isRepostEffect = 15 ∧
    ¬ (runRecoverableFailures 16 17 ⟨0⟩).countP isRepostEffect = 16 ∧
    runRecoverableFailures 16 17 ⟨0⟩ =
      (List.range 15).map (fun i => RdmaEffect.reposted ⟨i + 1⟩) ++
        [RdmaEffect.callbackFailed ⟨16⟩ OMPI_ERROR] := by
  refine ⟨?_, ?_, ?_⟩ <;> decide

lemma runRecoverableFailures_eq (m : Nat) :
    ∀ (n t : Nat), t < m → m - t ≤ n →
      runRecoverableFailures m n ⟨t⟩ =
        (List.range (m - t - 1)).map (fun i => RdmaEffect.reposted ⟨t + i + 1⟩) ++
          [RdmaEffect.callbackFailed ⟨m⟩ OMPI_ERROR] := by
  intro n
  induction n with
  | zero =>
    intro t ht hle
    omega
  | succ n ih =>
    intro t ht hle
    by_cases hstop : m ≤ t + 1
    · have htm : t + 1 = m := by omega
      rw [show runRecoverableFailures m (n + 1) ⟨t⟩ =
          [RdmaEffect.callbackFailed ⟨t + 1⟩ OMPI_ERROR] by
        simp [runRecoverableFailures, mca_btl_ugni_progress_rdma, hstop]]
      rw [htm, show m - t - 1 = 0 by omega]
      simp
    · have hlt : t + 1 < m := by omega
      rw [show runRecoverableFailures m (n + 1) ⟨t⟩ =
          RdmaEffect.reposted ⟨t + 1⟩ :: runRecoverableFailures m n ⟨t + 1⟩ by
        simp [runRecoverableFailures, mca_btl_ugni_progress_rdma, hstop]]
      rw [ih (t + 1) hlt (by omega)]
      rw [show m - t - 1 = (m - (t + 1) - 1) + 1 by omega]
      rw [List.range_succ_eq_map, List.map_cons, List.map_map, List.cons_append]
      congr 2
      apply List.map_congr_left
      intro i _
      show RdmaEffect.reposted ⟨t + 1 + i + 1⟩ = RdmaEffect.reposted ⟨t + (i + 1) + 1⟩
      congr 2
      omega

/-- Claim C2 (amended): a fragment (fresh retry counter) subjected to
repeated recoverable hardware-completion failures is resubmitted exactly
rdma_max_retries − 1 times and its completion callback is invoked with a
failure status (OMPI_ERROR) on the rdma_max_retries-th recoverable
failure; the fragment is never silently dropped — the run delivers
exactly one terminal failure callback. -/
theorem rdma_retry_bound (m : Nat) (hm : 1 ≤ m) :
    runRecoverableFailures m m ⟨0⟩ =
      (List.range (m - 1)).map (fun i => RdmaEffect.reposted ⟨i + 1⟩) ++
        [RdmaEffect.callbackFailed ⟨m⟩ OMPI_ERROR] ∧
    (runRecoverableFailures m m ⟨0⟩).countP isRepostEffect = m - 1 ∧
    (runRecoverableFailures m m ⟨0⟩).countP isFailCallbackEffect = 1 := by
  have h := runRecoverableFailures_eq m m 0 (by omega) (by omega)
  rw [show m - 0 - 1 = m - 1 by omega] at h
  have h' : runRecoverableFailures m m ⟨0⟩ =
      (List.range (m - 1)).map (fun i => RdmaEffect.reposted ⟨i + 1⟩) ++
        [RdmaEffect.callbackFailed ⟨m⟩ OMPI_ERROR] := by
    rw [h]
    congr 1
    apply List.map_congr_left
    intro i _
    show RdmaEffect.reposted ⟨0 + i + 1⟩ = RdmaEffect.reposted ⟨i + 1⟩
    congr 2
    omega
  refine ⟨h', ?_, ?_⟩
  · rw [h', List.countP_append, List.countP_map]
    have h1 : (List.range (m - 1)).countP
        (isRepostEffect ∘ fun i => RdmaEffect.reposted ⟨i + 1⟩) = m - 1 := by
      rw [List.countP_eq_length.mpr]
      · exact List.length_range (m - 1)
      · intro a _
        rfl
    rw [h1]
    simp [isRepostEffect]
  · rw [h', List.countP_append, List.countP_map]
    have h1 : (List.range (m - 1)).countP
        (isFailCallbackEffect ∘ fun i => RdmaEffect.reposted ⟨i + 1⟩) = 0 := by
      rw [List.countP_eq_zero.mpr]
      intro a _
      simp [isFailCallbackEffect, Function.comp]
    rw [h1]
    simp [isFailCallbackEffect]

/-- Witness for the amended claim C2 at the registered default
rdma_max_retries = 16. -/
theorem rdma_retry_bound_witness :
    1 ≤ 16 ∧
    (runRecoverableFailures 16 16 ⟨0⟩ =
      (List.range (16 - 1)).map (fun i => RdmaEffect.reposted ⟨i + 1⟩) ++
        [RdmaEffect.callbackFailed ⟨16⟩ OMPI_ERROR] ∧
     (runRecoverableFailures 16 16 ⟨0⟩).countP isRepostEffect = 16 - 1 ∧
     (runRecoverableFailures 16 16 ⟨0⟩).countP isFailCallbackEffect = 1) :=
  ⟨by decide, rdma_retry_bound 16 (by decide)⟩

/-- Claim C3 (counterexample): the claim says the returned value counts
the work advanced across all five steps and that zero is returned exactly
when no progress was made.  A single module holding one failed-but-
recoverable fragment and nothing else: mca_btl_ugni_retry_failed flushes
that fragment (one work item advanced, its callback fires), yet
mca_btl_ugni_component_progress returns 0 because the counts of the first
two steps are discarded (part_001:531-532). -/
theorem component_progress_discards_retry_count_counterexample :
    mca_btl_ugni_component_progress [⟨[42], 0, 0, 0, 0, 0⟩] = 0 ∧
    spec_progress_work_total [⟨[42], 0, 0, 0, 0, 0⟩] = 1 ∧
    (mca_btl_ugni_retry_failed [42]).2 = 1 ∧
    ¬ mca_btl_ugni_component_progress [⟨[42], 0, 0, 0, 0, 0⟩] =
        spec_progress_work_total [⟨[42], 0, 0, 0, 0, 0⟩] := by
  refine ⟨rfl, rfl, rfl, ?_⟩
  decide

lemma component_progress_foldl_acc (modules : List UgniModuleObs) :
    ∀ a : Int,
      modules.foldl
        (fun count m =>
          count + m.datagram_count + m.local_smsg_count +
            m.remote_smsg_count + m.rdma_count) a =
      a + (modules.map
            (fun m => m.datagram_count + m.local_smsg_count +
              m.remote_smsg_count + m.rdma_count)).sum := by
  induction modules with
  | nil => intro a; simp
  | cons m rest ih =>
    intro a
    rw [List.foldl_cons, ih, List.map_cons, List.sum_cons]
    ring

lemma spec_total_foldl_acc (modules : List UgniModuleObs) :
    ∀ a : Int,
      modules.foldl
        (fun count m =>
          count + (m.failed_frags.length : Int) + (m.ep_wait_list_len : Int) +
            m.datagram_count + m.local_smsg_count +
            m.remote_smsg_count + m.rdma_count) a =
      a + (modules.map
            (fun m => (m.failed_frags.length : Int) + (m.ep_wait_list_len : Int) +
              m.datagram_count + m.local_smsg_count +
              m.remote_smsg_count + m.rdma_count)).sum := by
  induction modules with
  | nil => intro a; simp
  | cons m rest ih =>
    intro a
    rw [List.foldl_cons, ih, List.map_cons, List.sum_cons]
    ring

/-- Claim C3 (amended): the value mca_btl_ugni_component_progress returns
is the total of the four polled steps only (connection datagrams, local
SMSG, remote SMSG, RDMA) across the modules; the soft-retry flush and the
wait-list drain are performed but their work counts are discarded, so the
five-step total of the spec equals the returned value plus the two
uncounted per-module counts — and a zero return therefore does not imply
that no progress was made. -/
theorem component_progress_counts_only_polled_steps (modules : List UgniModuleObs) :
    mca_btl_ugni_component_progress modules =
      (modules.map
        (fun m => m.datagram_count + m.local_smsg_count +
          m.remote_smsg_count + m.rdma_count)).sum ∧
    spec_progress_work_total modules =
      mca_btl_ugni_component_progress modules +
        (modules.map
          (fun m => ((mca_btl_ugni_retry_failed m.failed_frags).2 : Int) +
            (m.ep_wait_list_len : Int))).sum := by
  constructor
  · rw [show mca_btl_ugni_component_progress modules =
        modules.foldl
          (fun count m =>
            count + m.datagram_count + m.local_smsg_count +
              m.remote_smsg_count + m.rdma_count) 0 from rfl]
    rw [component_progress_foldl_acc modules 0]
    ring
  · rw [show mca_btl_ugni_component_progress modules =
        modules.foldl
          (fun count m =>
            count + m.datagram_count + m.local_smsg_count +
              m.remote_smsg_count + m.rdma_count) 0 from rfl]
    rw [spec_progress_work_total, spec_total_foldl_acc modules 0,
        component_progress_foldl_acc modules 0]
    induction modules with
    | nil => simp
    | cons m rest ih =>
      simp only [List.map_cons, List.sum_cons, mca_btl_ugni_retry_failed] at ih ⊢
      omega

lemma progressWaitListLoop_spec (oracle : Nat → Bool × Bool) :
    ∀ (k : Nat) (R A flags : List Nat),
      R.length = k →
      (R ++ A).Nodup → flags.Nodup →
      (∀ e ∈ flags, e ∈ R ++ A) → (∀ e ∈ R ++ A, e ∈ flags) →
      ∃ A2 : List Nat,
        (progressWaitListLoop oracle k ⟨R ++ A, flags⟩).1.ep_wait_list = A ++ A2 ∧
        (progressWaitListLoop oracle k ⟨R ++ A, flags⟩).2 = A2 ∧
        A2.Nodup ∧ (∀ e ∈ A2, e ∈ R) ∧
        WaitInv (progressWaitListLoop oracle k ⟨R ++ A, flags⟩).1 := by
  intro k
  induction k with
  | zero =>
    intro R A flags hlen hnd hflags hfa hfb
    have hR : R = [] := List.length_eq_zero.mp hlen
    subst hR
    refine ⟨[], by simp [progressWaitListLoop], rfl, List.nodup_nil, ?_, ?_⟩
    · intro x hx
      simp at hx
    · exact ⟨by simpa using hnd, hflags, by simpa using hfa, by simpa using hfb⟩
  | succ k ih =>
    intro R A flags hlen hnd hflags hfa hfb
    cases R with
    | nil => simp at hlen
    | cons e R' =>
      have hlen' : R'.length = k := by simpa using hlen
      have hnd2 : (e :: (R' ++ A)).Nodup := by simpa using hnd
      have he : e ∉ R' ++ A := (List.nodup_cons.mp hnd2).1
      have hnd' : (R' ++ A).Nodup := (List.nodup_cons.mp hnd2).2
      have he1 : e ∉ flags.erase e := fun hmem =>
        ((hflags.mem_erase_iff).mp hmem).1 rfl
      have hfa1 : ∀ x ∈ flags.erase e, x ∈ R' ++ A := by
        intro x hxm
        obtain ⟨hxe, hxf⟩ := (hflags.mem_erase_iff).mp hxm
        have hx2 := hfa x hxf
        simp only [List.cons_append, List.mem_cons] at hx2
        rcases hx2 with rfl | hx3
        · exact absurd rfl hxe
        · exact hx3
      have hfb1 : ∀ x ∈ R' ++ A, x ∈ flags.erase e := by
        intro x hxm
        have hxne : x ≠ e := fun hEq => he (hEq ▸ hxm)
        have hxf : x ∈ flags :=
          hfb x (by simpa using List.mem_cons_of_mem e hxm)
        exact (hflags.mem_erase_iff).mpr ⟨hxne, hxf⟩
      -- one iteration either re-appends the popped endpoint once or not
      have hchar :
          progressWaitListLoop oracle (k + 1) ⟨(e :: R') ++ A, flags⟩ =
            ((progressWaitListLoop oracle k ⟨(R' ++ A) ++ [e], e :: flags.erase e⟩).1,
             e :: (progressWaitListLoop oracle k ⟨(R' ++ A) ++ [e], e :: flags.erase e⟩).2) ∨
          progressWaitListLoop oracle (k + 1) ⟨(e :: R') ++ A, flags⟩ =
            progressWaitListLoop oracle k ⟨R' ++ A, flags.erase e⟩ := by
        by_cases hx : (oracle k).2 = true
        · left
          simp [progressWaitListLoop, List.cons_append, wait_list_add, he1, hx]
        · have hx' : (oracle k).2 = false := by revert hx; cases (oracle k).2 <;> simp
          by_cases hs : (oracle k).1 = true
          · right
            simp [progressWaitListLoop, List.cons_append, wait_list_add, hx', hs]
          · have hs' : (oracle k).1 = false := by revert hs; cases (oracle k).1 <;> simp
            left
            simp [progressWaitListLoop, List.cons_append, wait_list_add, he1, hx', hs']
      rcases hchar with hstep | hstep
      · -- the endpoint was re-appended (by the send path or by line 514)
        have hstep1 : (progressWaitListLoop oracle (k + 1) ⟨(e :: R') ++ A, flags⟩).1 =
            (progressWaitListLoop oracle k ⟨(R' ++ A) ++ [e], e :: flags.erase e⟩).1 := by
          rw [hstep]
        have hstep2 : (progressWaitListLoop oracle (k + 1) ⟨(e :: R') ++ A, flags⟩).2 =
            e :: (progressWaitListLoop oracle k ⟨(R' ++ A) ++ [e], e :: flags.erase e⟩).2 := by
          rw [hstep]
        have hndApp : (R' ++ (A ++ [e])).Nodup := by
          rw [← List.append_assoc]
          exact ((List.perm_append_singleton e (R' ++ A)).symm).nodup hnd2
        have hfAnd : (e :: flags.erase e).Nodup :=
          List.nodup_cons.mpr ⟨he1, hflags.erase e⟩
        have hfaApp : ∀ x ∈ e :: flags.erase e, x ∈ R' ++ (A ++ [e]) := by
          intro x hxm
          rcases List.mem_cons.mp hxm with rfl | hxf
          · simp
          · have hx2 : x ∈ R' ++ A := hfa1 x hxf
            rw [← List.append_assoc]
            exact List.mem_append_left _ hx2
        have hfbApp : ∀ x ∈ R' ++ (A ++ [e]), x ∈ e :: flags.erase e := by
          intro x hxm
          rw [← List.append_assoc] at hxm
          rcases List.mem_append.mp hxm with hx2 | hx2
          · exact List.mem_cons_of_mem _ (hfb1 x hx2)
          · rw [List.mem_singleton.mp hx2]
            exact List.mem_cons_self _ _
        obtain ⟨A2', h1, h2, h3, h4, h5⟩ :=
          ih R' (A ++ [e]) (e :: flags.erase e) hlen'
            (by rw [← List.append_assoc] at hndApp ⊢; exact hndApp)
            hfAnd hfaApp hfbApp
        have hassoc : (⟨R' ++ (A ++ [e]), e :: flags.erase e⟩ : WaitListState) =
            ⟨(R' ++ A) ++ [e], e :: flags.erase e⟩ := by
          rw [List.append_assoc]
        rw [hassoc] at h1 h2 h5
        refine ⟨e :: A2', ?_, ?_, ?_, ?_, ?_⟩
        · rw [hstep1, h1]
          simp
        · rw [hstep2, h2]
        · refine List.nodup_cons.mpr ⟨?_, h3⟩
          intro hmem
          exact he (List.mem_append_left A (h4 e hmem))
        · intro x hxm
          rcases List.mem_cons.mp hxm with rfl | hxm'
          · exact List.mem_cons_self _ _
          · exact List.mem_cons_of_mem _ (h4 x hxm')
        · rw [hstep1]
          exact h5
      · -- the endpoint made progress and was not re-appended
        obtain ⟨A2', h1, h2, h3, h4, h5⟩ :=
          ih R' A (flags.erase e) hlen' hnd' (hflags.erase e) hfa1 hfb1
        refine ⟨A2', ?_, ?_, h3, ?_, ?_⟩
        · rw [hstep]
          exact h1
        · rw [hstep]
          exact h2
        · intro x hxm
          exact List.mem_cons_of_mem _ (h4 x hxm)
        · rw [hstep]
          exact h5

/-- Claim C7: an endpoint never appears twice in a module's endpoint wait
list.  The invariant — ep_wait_list duplicate-free with the wait_listed
flag true for exactly its members — is preserved both by the (guarded)
backpressure append and by a whole mca_btl_ugni_progress_wait_list
invocation under any outcome of the external send attempts, and within
one invocation every endpoint is re-appended at most once (the append log
of the invocation is duplicate-free). -/
theorem wait_list_no_double_listing (s : WaitListState) (e : Nat)
    (oracle : Nat → Bool × Bool) (h : WaitInv s) :
    WaitInv (wait_list_add s e).1 ∧
    WaitInv (mca_btl_ugni_progress_wait_list oracle s).1 ∧
    ((mca_btl_ugni_progress_wait_list oracle s).2.1).Nodup := by
  obtain ⟨hnd, hflags, hfa, hfb⟩ := h
  have hrun := progressWaitListLoop_spec oracle s.ep_wait_list.length
      s.ep_wait_list [] s.flagged rfl (by simpa using hnd) hflags
      (by simpa using hfa) (by simpa using hfb)
  have hs : (⟨s.ep_wait_list ++ [], s.flagged⟩ : WaitListState) = s := by
    simp
  rw [hs] at hrun
  obtain ⟨A2, h1, h2, h3, h4, h5⟩ := hrun
  refine ⟨?_, h5, ?_⟩
  · by_cases hm : e ∈ s.flagged
    · rw [show (wait_list_add s e).1 = s by simp [wait_list_add, hm]]
      exact ⟨hnd, hflags, hfa, hfb⟩
    · rw [show (wait_list_add s e).1 = ⟨s.ep_wait_list ++ [e], e :: s.flagged⟩ by
        simp [wait_list_add, hm]]
      have hew : e ∉ s.ep_wait_list := fun hw => hm (hfb e hw)
      refine ⟨?_, List.nodup_cons.mpr ⟨hm, hflags⟩, ?_, ?_⟩
      · exact ((List.perm_append_singleton e s.ep_wait_list).symm).nodup
          (List.nodup_cons.mpr ⟨hew, hnd⟩)
      · intro x hx
        rcases List.mem_cons.mp hx with rfl | hx'
        · simp
        · exact List.mem_append_left _ (hfa x hx')
      · intro x hx
        rcases List.mem_append.mp hx with hx' | hx'
        · exact List.mem_cons_of_mem _ (hfb x hx')
        · rw [List.mem_singleton.mp hx']
          exact List.mem_cons_self _ _
  · show (progressWaitListLoop oracle s.ep_wait_list.length s).2.Nodup
    rw [h2]
    exact h3

/-- Witness for claim C7 at a concrete two-endpoint wait list with
failing send attempts that re-wait-list each endpoint. -/
theorem wait_list_no_double_listing_witness :
    WaitInv ⟨[3, 5], [5, 3]⟩ ∧
    (WaitInv (wait_list_add ⟨[3, 5], [5, 3]⟩ 4).1 ∧
     WaitInv (mca_btl_ugni_progress_wait_list (fun _ => (false, true)) ⟨[3, 5], [5, 3]⟩).1 ∧
     ((mca_btl_ugni_progress_wait_list (fun _ => (false, true)) ⟨[3, 5], [5, 3]⟩).2.1).Nodup) := by
  have h : WaitInv ⟨[3, 5], [5, 3]⟩ := ⟨by decide, by decide, by decide, by decide⟩
  exact ⟨h, wait_list_no_double_listing ⟨[3, 5], [5, 3]⟩ 4 (fun _ => (false, true)) h⟩

/-- Claim C8: with smsg_limit 0 (auto-select) and 600 reported processes,
mca_btl_ugni_smsg_setup selects the 2048 band (counts up to 1024), not
8192 (counts up to 512) nor any other band; the band boundaries are
inclusive at 512, 1024, 8192 and 16384, with 256 for any larger count. -/
theorem smsg_setup_band_at_600 :
    smsg_limit_select 0 600 = 2048 ∧
    smsg_limit_select 0 600 ≠ 8192 ∧
    smsg_limit_select 0 512 = 8192 ∧ smsg_limit_select 0 513 = 2048 ∧
    smsg_limit_select 0 1024 = 2048 ∧ smsg_limit_select 0 1025 = 1024 ∧
    smsg_limit_select 0 8192 = 1024 ∧ smsg_limit_select 0 8193 = 512 ∧
    smsg_limit_select 0 16384 = 512 ∧ smsg_limit_select 0 16385 = 256 := by
  decide
